import Mathlib

/-!
Verification of the `list` package: a generic slice-based circular list
container with ordered-view and heap adapters.

The development shallowly embeds the Go source into Lean:
machine integers become `Int` (no arithmetic here approaches 64-bit
overflow), slices become `List`, Go's truncated division and modulo
become `Int.tdiv` / `Int.tmod`, fallible operations return `Except`,
and runtime panics are modelled by a dedicated error value.
The package sources contain three evolutionary variants of the design;
they are embedded in separate namespaces:
* `XgoView` — the `view`-struct variant (the file introducing `view`,
  `fix` and `Rotate`; the package's test file exercises this variant).
* `XgoV1`   — the first variant of `list.go` (error-returning API),
  whose `MarshalJSON`/`UnmarshalJSON` pair is embedded for the
  round-trip claim.
* `XgoV2`   — the second variant of `list.go` (`ReplaceN`-based API),
  the variant the `Ordered`/`Heap` adapters are built on, together
  with the `container/heap` algorithms those adapters invoke.

All loops are embedded as structurally recursive functions on an
explicit fuel argument so that every definition evaluates by `rfl` or
`decide`; the fuel is always at least the loop's iteration count on
the runs analysed here.
-/

namespace Xgo

/-- Error kinds reported by the package, plus `goPanic` to model a Go
runtime panic (out-of-range slice expression or a loop that cannot
make progress). -/
inductive GoErr
  | invalidPosition
  | invalidRange
  | invalidAmount
  | invalidAllocation
  | goPanic
deriving DecidableEq

instance {E A : Type} [DecidableEq E] [DecidableEq A] : DecidableEq (Except E A) := fun x y =>
  match x, y with
  | .ok a, .ok b => if h : a = b then .isTrue (by rw [h]) else .isFalse (by simp [h])
  | .error a, .error b => if h : a = b then .isTrue (by rw [h]) else .isFalse (by simp [h])
  | .ok _, .error _ => .isFalse (by simp)
  | .error _, .ok _ => .isFalse (by simp)

/-- Go's `%` operator on `int`: truncated modulo. -/
def goMod (a b : Int) : Int := a.tmod b

/-- Go's `/` operator on `int`: truncated division. -/
def goDiv (a b : Int) : Int := a.tdiv b

/-- The expression `((i % l) + l) % l` that all three variants use to
normalize a position, written with Go's truncated `%`. -/
def absGo (l i : Int) : Int := goMod (goMod i l + l) l

/-- Go's `copy(dst[dstStart:dstStart+n], src[srcStart:srcStart+n])` on
segments that are in range: `n` elements of `src` starting at
`srcStart` overwrite the `n` elements of `dst` starting at `dstStart`.
The source segment is extracted before writing, which is also Go's
behaviour for overlapping segments of one slice (`copy` has memmove
semantics). -/
def copySeg {T : Type} (dst src : List T) (dstStart srcStart n : Nat) : List T :=
  dst.take dstStart ++ (src.drop srcStart).take n ++ dst.drop (dstStart + n)

end Xgo

namespace XgoView

open Xgo

/-- Embeds `fix` of the `view` variant: removes redundancy from a
position `i` of a list with `length` elements; total, with result `0`
when `length == 0`, fast paths for `i` in `[-length, 2*length)` and a
fallback `((i % length) + length) % length`. -/
def fix (length i : Int) : Int :=
  if length = 0 then 0
  else if 0 ≤ i then
    if i < length then i
    else if i < 2 * length then i - length
    else absGo length i
  else if -length < i then i + length
  else absGo length i

/-- The `List[T]` state of the `view` variant: the underlying slice
`s`, the stored slice length `slen`, and the window `(back, len)`.
`AllocFunc`, `FreeFunc` and `StringFunc` are left at their `nil`
defaults, so allocation uses `AllocDefault` and migration does not
clear the old slice. -/
structure GoList (T : Type) where
  s : List T
  slen : Int
  len : Int
  back : Int
deriving DecidableEq

/-- `view.elBound`: whether `i` is a valid list element position. -/
def elBound {T : Type} (l : GoList T) (i : Int) : Bool :=
  i < l.len && 0 ≤ i

/-- `view.rngBound`: whether `i:j` is a valid non-wrapping range. -/
def rngBound {T : Type} (l : GoList T) (i j : Int) : Bool :=
  j ≤ l.len && i ≤ j && 0 ≤ i

/-- `view.xBound`: whether `(i, n)` is a valid extraction bound. -/
def xBound {T : Type} (l : GoList T) (i n : Int) : Bool :=
  elBound l i && n ≤ l.len && 0 ≤ n

/-- `view.abs`: the slice position for an in-bounds list position. -/
def abs {T : Type} (l : GoList T) (i : Int) : Int :=
  if i + l.back ≥ l.slen then i + l.back - l.slen else i + l.back

/-- `view.fixAbs` exactly as written in the source: it normalizes `i`
with `fix` but (unlike the equivalent form `v.abs(fix(v.len, i))`
stated in its own comment) never adds `v.back`, and compares the
normalized value against `slen` with a strict `>`. -/
def fixAbs {T : Type} (l : GoList T) (i : Int) : Int :=
  if l.len = 0 then 0
  else
    let i2 := fix l.len i
    if i2 > l.slen then i2 - l.slen else i2

/-- `view.wraps`: whether the window wraps around the slice. -/
def wraps {T : Type} (l : GoList T) : Bool :=
  l.slen - l.back < l.len

/-- Loop body of `wrapCopy` (distinct slices): per chunk, copy
`min(left, l1-i1, l2-i2)` elements of `s2` at `i2` into `s1` at `i1`
— Go's builtin `copy(dst, src)` writes into its first operand, and
`wrapCopy` passes `s1` first — then advance both cursors with `fix`. -/
def wrapCopyLoop {T : Type} (l1 l2 : Int) (s2 : List T) :
    Nat → List T → Int → Int → Int → List T
  | 0, s1, _, _, _ => s1
  | fuel + 1, s1, i1, i2, left =>
    if left ≤ 0 then s1
    else
      let copied := min left (min (l1 - i1) (l2 - i2))
      if copied ≤ 0 then s1
      else
        let s1' := copySeg s1 s2 i1.toNat i2.toNat copied.toNat
        wrapCopyLoop l1 l2 s2 fuel s1' (fix l1 (i1 + copied)) (fix l2 (i2 + copied))
          (left - copied)

/-- Embeds `wrapCopy(s1, s2, i1, i2, n)` of the `view` variant for
distinct slices: as compiled, it copies `n` elements of `s2` starting
at `i2` into `s1` starting at `i1` (its doc comment claims the
opposite direction), clamping `n` to `min(n, len(s1), len(s2))` and
wrapping both cursors.  Returns the updated first argument. -/
def wrapCopy {T : Type} (s1 s2 : List T) (i1 i2 n : Int) : List T :=
  let l1 : Int := s1.length
  let l2 : Int := s2.length
  if l1 = 0 ∨ l2 = 0 ∨ n < 1 then s1
  else
    let n' := min n (min l1 l2)
    wrapCopyLoop l1 l2 s2 n'.toNat s1 (fix l1 i1) (fix l2 i2) n'

/-- Loop body of `wrapCopy` when both arguments are the same slice
(as `selfWrapCopy`'s left-copy branch invokes it): each chunk reads
the slice as already updated by the previous chunks. -/
def wrapCopyAliasLoop {T : Type} (l : Int) :
    Nat → List T → Int → Int → Int → List T
  | 0, s, _, _, _ => s
  | fuel + 1, s, i1, i2, left =>
    if left ≤ 0 then s
    else
      let copied := min left (min (l - i1) (l - i2))
      if copied ≤ 0 then s
      else
        let s' := copySeg s s i1.toNat i2.toNat copied.toNat
        wrapCopyAliasLoop l fuel s' (fix l (i1 + copied)) (fix l (i2 + copied))
          (left - copied)

/-- `wrapCopy(s, s, i1, i2, n)`: the same Go function invoked with
aliased arguments. -/
def wrapCopyAlias {T : Type} (s : List T) (i1 i2 n : Int) : List T :=
  let l : Int := s.length
  if l = 0 ∨ n < 1 then s
  else
    let n' := min n l
    wrapCopyAliasLoop l n'.toNat s (fix l i1) (fix l i2) n'

/-- The right-copy-first loop of `selfWrapCopy`: cursors `j` and
`targetJ` walk down from the top of the moved range, with the slice
expression `copy(s[targetJ-copied:], s[j-copied:j])` of each round;
`none` models a Go slice-bound panic or a round that cannot make
progress. -/
def selfLoop {T : Type} (l : Int) :
    Nat → List T → Int → Int → Int → Int → Option (List T)
  | 0, _, _, _, _, _ => none
  | fuel + 1, s, j, targetJ, copiedPrev, n =>
    if n ≤ 0 then some s
    else
      let tj := targetJ - copiedPrev
      let tj' := if tj < 1 then tj + l else tj
      let j1 := j - copiedPrev
      let j' := if j1 < 1 then j1 + l else j1
      let copied := min j' (min tj' n)
      if copied ≤ 0 then none
      else if 0 ≤ j' - copied ∧ j' ≤ l ∧ 0 ≤ tj' - copied ∧ tj' ≤ l then
        let seg := (s.drop (j' - copied).toNat).take copied.toNat
        let s' := s.take (tj' - copied).toNat ++ seg ++ s.drop tj'.toNat
        selfLoop l fuel s' j' tj' copied (n - copied)
      else none

/-- Embeds `selfWrapCopy(s, i, n, m)` of the `view` variant: moves the
elements in `[i, i+n)` by `m` positions inside the circular slice;
no-op when `n < 1`, `len(s) <= n`, `len(s) <= m` or `m == 0`;
otherwise copies left part first (via `wrapCopy` on the aliased
slice) or right part first. -/
def selfWrapCopy {T : Type} (s : List T) (i n m : Int) : Option (List T) :=
  let l : Int := s.length
  if l = 0 ∨ n < 1 ∨ l ≤ n ∨ l ≤ m ∨ m = 0 then some s
  else
    let i' := fix l i
    let targetI := fix l (i' + m)
    if targetI < i' then some (wrapCopyAlias s i' targetI n)
    else selfLoop l (n.toNat + 1) s (i' + n) (targetI + n) 0 n

/-- Loop body of `wrapClear` of the `view` variant, exactly in the
source's order: while `0 < left`, first re-fix `i` by the total
cleared so far and subtract the total cleared from `left`, then zero
`s[i:j]` with `j = min(i+left, l)`; `none` models the Go slice-bound
panic when `j < i`. -/
def clearLoop {T : Type} [Inhabited T] (l : Int) :
    Nat → List T → Int → Int → Int → Option (List T)
  | 0, _, _, _, _ => none
  | fuel + 1, s, i, cleared, left =>
    if left ≤ 0 then some s
    else
      let i' := fix l (i + cleared)
      let left' := left - cleared
      let j := min (i' + left') l
      if 0 ≤ i' ∧ i' ≤ j then
        let s' := s.take i'.toNat ++ List.replicate (j - i').toNat default ++ s.drop j.toNat
        clearLoop l fuel s' i' (cleared + (j - i')) left'
      else none

/-- Embeds `wrapClear(s, i, n)` of the `view` variant: zeroes at most
`n` elements with respect to index `i` (negative `n` meaning the `n`
elements before `i`), clearing the whole slice when `len(s) <= n`.
Returns the updated slice and the function's `int` result. -/
def wrapClear {T : Type} [Inhabited T] (s : List T) (i n : Int) : Option (List T × Int) :=
  let l : Int := s.length
  if l = 0 ∨ n = 0 then some (s, 0)
  else
    let i' := if n < 0 then i + n else i
    let n' := if n < 0 then -n else n
    if l ≤ n' then some (List.replicate s.length default, l)
    else
      match clearLoop l (n'.toNat + 3) s i' 0 n' with
      | some s2 => some (s2, n')
      | none => none

/-- `FixAllocSize`: clamp an intended capacity to `maxCap` when the
latter is non-negative. -/
def FixAllocSize (newIntendedCap maxCap : Int) : Int :=
  if 0 ≤ maxCap ∧ maxCap < newIntendedCap then maxCap else newIntendedCap

/-- `AllocDefault`: the default `AllocFunc`, allocating a zeroed slice
of `min*3/2 + 1` elements clamped by `FixAllocSize`. -/
def AllocDefault (T : Type) [Inhabited T] (mn mx : Int) : List T :=
  let size := goDiv (mn * 3) 2 + 1
  let size' := FixAllocSize size mx
  List.replicate size'.toNat default

/-- `List.alloc` with the `AllocFunc` field at its `nil` default:
calls `AllocDefault` and validates the allocation contract. -/
def alloc (T : Type) [Inhabited T] (mn mx : Int) : Except GoErr (List T) :=
  let s := AllocDefault T mn mx
  let ls : Int := s.length
  if ls < mn ∨ FixAllocSize ls mx ≠ ls then .error .invalidAllocation
  else .ok s

/-- `List.free` with the `FreeFunc` field at its `nil` default: no
clearing or callback, just install the new slice and record its
length in `slen`. -/
def free {T : Type} (l : GoList T) (newSlice : List T) : GoList T :=
  { l with s := newSlice, slen := (newSlice.length : Int) }

/-- Embeds the unexported `grow(min, max)` of the `view` variant:
no-op when the current free space already lies in the range,
otherwise computes `needCap = len + (max-min)/2` and only when
`slen < needCap` allocates and migrates (`wrapCopy(l.s, s, l.back, 0,
l.len)` writes into the old slice as compiled, so the data never
reaches the new one), then resets `back`. -/
def grow {T : Type} [Inhabited T] (l : GoList T) (mn mx : Int) : Except GoErr (GoList T) :=
  let fr := l.slen - l.len
  if mn ≤ fr ∧ (mx < 0 ∨ fr ≤ mx) then .ok l
  else
    let needCap := l.len + goDiv (mx - mn) 2
    if l.slen < needCap then
      match alloc T mn mx with
      | .error e => .error e
      | .ok s =>
        let sOld := wrapCopy l.s s l.back 0 l.len
        let l2 := free { l with s := sOld } s
        .ok { l2 with back := 0 }
    else .ok l

/-- `Grow(n)`: reject negative `n`, then `grow(n, -1)`. -/
def Grow {T : Type} [Inhabited T] (l : GoList T) (n : Int) : Except GoErr (GoList T) :=
  if n < 0 then .error .invalidAmount else grow l n (-1)

/-- `GrowRange(min, max)`: reject `min < 0` or `max < min`, then
`grow(min, max)`. -/
def GrowRange {T : Type} [Inhabited T] (l : GoList T) (mn mx : Int) : Except GoErr (GoList T) :=
  if mn < 0 ∨ mx < mn then .error .invalidAmount else grow l mn mx

/-- `Free()`: the number of elements addable without reallocation. -/
def Free {T : Type} (l : GoList T) : Int := l.slen - l.len

/-- `Val(i)`: the element at position `i` and `true` when `i` is in
bounds, using `view.abs` for the slice position. -/
def Val {T : Type} [Inhabited T] (l : GoList T) (i : Int) : Option T :=
  if elBound l i then some (l.s.getD (abs l i).toNat default) else none

/-- `At(i)` of the `view` variant: the zero value on an empty list,
otherwise the slice element at `fixAbs(i)`. -/
def At {T : Type} [Inhabited T] (l : GoList T) (i : Int) : T :=
  if l.len = 0 then default else l.s.getD (fixAbs l i).toNat default

/-- `Rotate(n)`: sets `back` to `fixAbs(n)`. -/
def Rotate {T : Type} (l : GoList T) (n : Int) : GoList T :=
  { l with back := fixAbs l n }

/-- `CopyTo(s, i, n)` of the `view` variant: validates the extraction
bound, then invokes `wrapCopy(l.s, s, l.abs(i), 0, n)` — which, as
compiled, writes into the list's own slice reading from `s` and
leaves the destination untouched.  Returns the updated list state and
the destination slice. -/
def CopyTo {T : Type} [Inhabited T] (l : GoList T) (dest : List T) (i n : Int) :
    Except GoErr (GoList T × List T) :=
  if ¬ xBound l i n then .error .invalidRange
  else if n = 0 then .ok (l, dest)
  else .ok ({ l with s := wrapCopy l.s dest (abs l i) 0 n }, dest)

/-- Embeds `Replace(i, j, s...)` of the `view` variant, including the
reallocation path and the in-place balloon path.  As compiled, every
`wrapCopy` writes into its first argument, so on the reallocation
path the fresh slice `ss` is installed still zeroed, and on the
in-place path the final `wrapCopy(s, l.s, 0, l.abs(i), ls)` modifies
the caller's value slice instead of the list. -/
def Replace {T : Type} [Inhabited T] (l : GoList T) (i j : Int) (vals : List T) :
    Except GoErr (GoList T) :=
  if ¬ rngBound l i j then .error .invalidRange
  else
    let n := min (l.len - i) (j - i)
    let ls : Int := vals.length
    if n < 1 ∧ ls = 0 then .ok l
    else
      let frontEls := l.len - i - n
      let needCap := i + ls + frontEls
      if l.slen < needCap then
        match alloc T needCap (-1) with
        | .error e => .error e
        | .ok ss =>
          let s1 := wrapCopy l.s ss l.back 0 i
          let _vals1 := wrapCopy vals ss 0 i ls
          let s2 := wrapCopy s1 ss (fixAbs l (-frontEls)) (i + ls) frontEls
          let l2 := free { l with s := s2 } ss
          .ok { l2 with back := 0, len := needCap }
      else
        let balloonOffset := n - ls
        let moved :=
          if i < frontEls then
            (selfWrapCopy l.s l.back i balloonOffset).map
              (fun s2 => (s2, fixAbs l balloonOffset, l.back))
          else
            (selfWrapCopy l.s (i + n) frontEls balloonOffset).map
              (fun s2 => (s2, l.back, fixAbs l (l.len - balloonOffset)))
        match moved with
        | none => .error .goPanic
        | some (s2, back2, balloonStart) =>
          match (if 0 < balloonOffset then wrapClear s2 balloonStart balloonOffset
                 else some (s2, 0)) with
          | none => .error .goPanic
          | some (s3, _) =>
            let _vals2 := wrapCopy vals s3 0 (abs { l with back := back2 } i) ls
            .ok { l with s := s3, back := back2, len := needCap }

/-- `Insert(i, s...)`: validates `rngBound(i, i)` and delegates to
`Replace(i, i, s...)`. -/
def Insert {T : Type} [Inhabited T] (l : GoList T) (i : Int) (vals : List T) :
    Except GoErr (GoList T) :=
  if ¬ rngBound l i i then .error .invalidPosition
  else Replace l i i vals

/-- `Pop()` of the `view` variant: reads `Val(len-1)` and, when
present, calls `Replace(l.len-1, 1)` — with `1` in the range-end
position — discarding the returned error. -/
def Pop {T : Type} [Inhabited T] (l : GoList T) : Except GoErr (T × GoList T) :=
  match Val l (l.len - 1) with
  | none => .ok (default, l)
  | some v =>
    match Replace l (l.len - 1) 1 [] with
    | .ok l2 => .ok (v, l2)
    | .error .goPanic => .error .goPanic
    | .error _ => .ok (v, l)

/-- `NewN(s, back, length)` of the `view` variant, with its boundary
validation. -/
def NewN {T : Type} (s : List T) (back length : Int) : Except GoErr (GoList T) :=
  if (s.length : Int) < back ∨ back < 0 ∨ ((s.length : Int) ≠ 0 ∧ (s.length : Int) = back)
  then .error .invalidPosition
  else if (s.length : Int) < length ∨ length < 0 then .error .invalidAmount
  else .ok { s := s, slen := (s.length : Int), len := length, back := back }

/-- The logical contents of a list state: the `Val` reading of every
position in `[0, len)`. -/
def logical {T : Type} [Inhabited T] (l : GoList T) : List T :=
  (List.range l.len.toNat).map (fun k : Nat => (Val l (k : Int)).getD default)

/-- A full three-element list, as built by `New([1,2,3], true)` or
`NewN([1,2,3], 0, 3)`. -/
def replaceSt : GoList Int := ⟨[1, 2, 3], 3, 3, 0⟩

/-- A list of ten elements at full capacity. -/
def growRangeSt : GoList Int := ⟨[7, 7, 7, 7, 7, 7, 7, 7, 7, 7], 10, 10, 0⟩

/-- The state `GrowRange(2, 100)` leaves `growRangeSt` in. -/
def growRangeResult : GoList Int := ⟨[0, 0, 0, 0], 4, 10, 0⟩

/-- The empty list with no underlying slice, as built by
`New(nil, false)`. -/
def emptySt : GoList Int := ⟨[], 0, 0, 0⟩

/-- A full three-element list whose back is at slice offset 1, as
built by `NewN([10,20,30], 1, 3)`; its logical contents are
`[20, 30, 10]`. -/
def backOneSt : GoList Int := ⟨[10, 20, 30], 3, 3, 1⟩

/-- The full three-element list `[3, 9, 2]` of the specification's
rotation scenario. -/
def rotSt : GoList Int := ⟨[3, 9, 2], 3, 3, 0⟩

/-- A one-element list holding `7`. -/
def copyToSt : GoList Int := ⟨[7], 1, 1, 0⟩

/-- The state `CopyTo([0], 0, 1)` leaves `copyToSt` in. -/
def copyToResult : GoList Int := ⟨[0], 1, 1, 0⟩

/-- A two-element list `[10, 20]`. -/
def popSt : GoList Int := ⟨[10, 20], 2, 2, 0⟩

end XgoView

namespace XgoV1

open Xgo

/-- The `List[T]` state of the first `list.go` variant: the slice and
the window; the capacity is `len(l.s)`. -/
structure GoList (T : Type) where
  s : List T
  back : Int
  len : Int
deriving DecidableEq

/-- `bound(l, i)`: whether `i` is in the range `[0, l)`. -/
def bound (l i : Int) : Bool :=
  0 < l && 0 ≤ i && i < l

/-- The `abs` method of this variant: `abs(len(l.s),
l.back + abs(l.len, i))` with the package-level `abs` embedded as
`absGo`. -/
def absL {T : Type} (l : GoList T) (i : Int) : Int :=
  absGo (l.s.length : Int) (l.back + absGo l.len i)

/-- `Val(i)` of this variant: the element and `true` when `i` is in
`[0, l.len)`. -/
def Val {T : Type} [Inhabited T] (l : GoList T) (i : Int) : Option T :=
  if bound l.len i then some (l.s.getD (absL l i).toNat default) else none

/-- `At(i)` of this variant: `Val(i)` with the found flag dropped. -/
def At {T : Type} [Inhabited T] (l : GoList T) (i : Int) : T :=
  (Val l i).getD default

/-- Embeds `MarshalJSON` of the first variant at the level of the
wrap/unwrap contract the specification fixes: the wire content is
the sequence of elements the method encodes, namely `At(i)` for `i`
in `[0, l.len)` (array framing and the per-element codec are the
external collaborator's responsibility). -/
def MarshalJSON {T : Type} [Inhabited T] (l : GoList T) : List T :=
  if l.len = 0 then [] else (List.range l.len.toNat).map (fun k : Nat => At l (k : Int))

/-- Embeds the successful path of `UnmarshalJSON` of the first
variant, with `FreeFunc` at its `nil` default: `l.back` is set to 0,
`free(nil)` leaves the slice untouched, `json.Unmarshal` replaces
`l.s` with exactly the decoded element sequence, `l.len` becomes its
length, and `l.s = l.s[:cap(l.s)]` is modelled with the fresh
allocation's capacity equal to its length. -/
def UnmarshalJSON {T : Type} (decoded : List T) : GoList T :=
  { s := decoded, back := 0, len := (decoded.length : Int) }

/-- A wrapped three-slot list of this variant whose back is at slice
offset 1: logical contents `[20, 30, 10]`. -/
def jsonSt : GoList Int := ⟨[10, 20, 30], 1, 3⟩

end XgoV1

namespace XgoV2

open Xgo

/-- The `List[T]` state of the second `list.go` variant (the variant
the `Ordered` and `Heap` adapters build on): slice and window; the
capacity is `len(l.s)`.  `AllocFunc` and `FreeFunc` are at their
`nil` defaults, so allocation uses `AllocDouble` and `free` is a
no-op. -/
structure GoList (T : Type) where
  s : List T
  back : Int
  len : Int
deriving DecidableEq

/-- `bound(l, i)`: whether `i` is in the range `[0, l)`. -/
def bound (l i : Int) : Bool :=
  0 < l && 0 ≤ i && i < l

/-- `boundRange(l, i, j)`: `i` in `[0, l)`, `j` in `[0, l]`, `i <= j`. -/
def boundRange (l i j : Int) : Bool :=
  bound l i && bound (l + 1) j && i ≤ j

/-- The `absEl` method: `absEl(len(l.s), l.back + absEl(l.len, i))`.
Go faults here when the relevant length is 0 (modulo by zero); every
caller below either guards the length or is reached only with a
positive length in the analysed runs. -/
def absEl {T : Type} (l : GoList T) (i : Int) : Int :=
  absGo (l.s.length : Int) (l.back + absGo l.len i)

/-- `numEls(n)`: fixes an amount-of-elements argument by reducing it
modulo the current length; `none` models Go's modulo-by-zero panic
on an empty list. -/
def numEls {T : Type} (l : GoList T) (n : Int) : Option Int :=
  if 0 < n then (if l.len = 0 then none else some (goMod n l.len)) else some 0

/-- `Val(i)` of this variant. -/
def Val {T : Type} [Inhabited T] (l : GoList T) (i : Int) : Option T :=
  if bound l.len i then some (l.s.getD (absEl l i).toNat default) else none

/-- `At(i)` of this variant: `Val(i)` with the found flag dropped. -/
def At {T : Type} [Inhabited T] (l : GoList T) (i : Int) : T :=
  (Val l i).getD default

/-- `SwapOK(i, j)`: swap the two slice slots (reading both before
writing) unless `i == j` or either is out of bounds. -/
def SwapOK {T : Type} [Inhabited T] (l : GoList T) (i j : Int) : GoList T × Bool :=
  if i = j ∨ ¬ bound l.len i ∨ ¬ bound l.len j then (l, false)
  else
    let ai := (absEl l i).toNat
    let aj := (absEl l j).toNat
    let vi := l.s.getD ai default
    let vj := l.s.getD aj default
    ({ l with s := (l.s.set ai vj).set aj vi }, true)

/-- `Swap(i, j)`: `SwapOK` with the flag dropped. -/
def Swap {T : Type} [Inhabited T] (l : GoList T) (i j : Int) : GoList T :=
  (SwapOK l i j).1

/-- `AllocDouble` followed by `alloc`'s size check: `none` models the
panic on an insufficient allocation (never taken, since the doubled
size is at least `needCap` whenever `needCap >= 0`). -/
def alloc (T : Type) [Inhabited T] (needCap : Int) : Option (List T) :=
  let s : List T := List.replicate (needCap * 2).toNat default
  if (s.length : Int) < needCap then none else some s

/-- Loop body of this variant's `wrapCopy`; identical to the `view`
variant's loop except that the cursors advance through the
package-level `absEl` (the plain `((i % l) + l) % l`). -/
def wrapCopyLoop {T : Type} (l1 l2 : Int) (s2 : List T) :
    Nat → List T → Int → Int → Int → List T
  | 0, s1, _, _, _ => s1
  | fuel + 1, s1, i1, i2, left =>
    if left ≤ 0 then s1
    else
      let copied := min left (min (l1 - i1) (l2 - i2))
      if copied ≤ 0 then s1
      else
        let s1' := copySeg s1 s2 i1.toNat i2.toNat copied.toNat
        wrapCopyLoop l1 l2 s2 fuel s1' (absGo l1 (i1 + copied)) (absGo l2 (i2 + copied))
          (left - copied)

/-- This variant's `wrapCopy(s1, s2, i1, i2, n)`: as compiled it
copies from `s2` into `s1` (`copy`'s first operand is the
destination), returning the updated `s1` and the count; `none`
models the modulo-by-zero panic of `absEl` when `n >= 1` and either
slice is empty. -/
def wrapCopy {T : Type} (s1 s2 : List T) (i1 i2 n : Int) : Option (List T × Int) :=
  if n < 1 then some (s1, 0)
  else
    let l1 : Int := s1.length
    let l2 : Int := s2.length
    if l1 = 0 ∨ l2 = 0 then none
    else
      let n' := min n (min l1 l2)
      some (wrapCopyLoop l1 l2 s2 n'.toNat s1 (absGo l1 i1) (absGo l2 i2) n', n')

/-- The right-copy-first loop of this variant's `selfWrapCopy`, with
its cursor update `if x = (x - copied) % l; x == 0 { x = l }`;
`none` models a slice-bound panic or a round without progress. -/
def selfLoop {T : Type} (l : Int) :
    Nat → List T → Int → Int → Int → Int → Option (List T)
  | 0, _, _, _, _, _ => none
  | fuel + 1, s, j, targetJ, copiedPrev, n =>
    if n ≤ 0 then some s
    else
      let tj0 := goMod (targetJ - copiedPrev) l
      let tj := if tj0 = 0 then l else tj0
      let j0 := goMod (j - copiedPrev) l
      let j' := if j0 = 0 then l else j0
      let copied := min j' (min tj n)
      if copied ≤ 0 then none
      else if 0 ≤ j' - copied ∧ j' ≤ l ∧ 0 ≤ tj - copied ∧ tj ≤ l then
        let seg := (s.drop (j' - copied).toNat).take copied.toNat
        let s' := s.take (tj - copied).toNat ++ seg ++ s.drop tj.toNat
        selfLoop l fuel s' j' tj copied (n - copied)
      else none

/-- Loop body of this variant's `wrapCopy` when both arguments alias
the same slice: each chunk reads the slice as already updated. -/
def wrapCopyAliasLoop {T : Type} (l : Int) :
    Nat → List T → Int → Int → Int → List T
  | 0, s, _, _, _ => s
  | fuel + 1, s, i1, i2, left =>
    if left ≤ 0 then s
    else
      let copied := min left (min (l - i1) (l - i2))
      if copied ≤ 0 then s
      else
        let s' := copySeg s s i1.toNat i2.toNat copied.toNat
        wrapCopyAliasLoop l fuel s' (absGo l (i1 + copied)) (absGo l (i2 + copied))
          (left - copied)

/-- This variant's `wrapCopy(s, s, i1, i2, n)` invoked with aliased
arguments (as `selfWrapCopy`'s left-copy branch does). -/
def wrapCopyAlias {T : Type} (s : List T) (i1 i2 n : Int) : List T :=
  if n < 1 then s
  else
    let l : Int := s.length
    if l = 0 then s
    else
      let n' := min n l
      wrapCopyAliasLoop l n'.toNat s (absGo l i1) (absGo l i2) n'

/-- This variant's `selfWrapCopy(s, i, n, m)`: no-op when `n < 1`,
`n >= len(s)` or `m >= len(s)`; otherwise left-copy via the aliased
`wrapCopy` or right-copy via `selfLoop`. -/
def selfWrapCopy {T : Type} (s : List T) (i n m : Int) : Option (List T) :=
  let l : Int := s.length
  if n < 1 ∨ l ≤ n ∨ l ≤ m then some s
  else
    let i' := absGo l i
    let targetI := absGo l (i' + m)
    if targetI < i' then some (wrapCopyAlias s i' targetI n)
    else selfLoop l (n.toNat + 1) s (i' + n) (targetI + n) 0 n

/-- Loop body of this variant's `wrapClear`, in the source's order:
zero `s[i:j]` with `j = min(i+left, l)`, accumulate into `cleared`,
then re-fix `i` and subtract the accumulated total from `left`. -/
def clearLoop {T : Type} [Inhabited T] (l : Int) :
    Nat → List T → Int → Int → Int → List T
  | 0, s, _, _, _ => s
  | fuel + 1, s, i, cleared, left =>
    if left ≤ 0 then s
    else
      let j := min (i + left) l
      let s' := s.take i.toNat ++ List.replicate (j - i).toNat default ++ s.drop j.toNat
      let cleared' := cleared + (j - i)
      clearLoop l fuel s' (absGo l (i + cleared')) cleared' (left - cleared')

/-- This variant's `wrapClear(s, i, n)`. -/
def wrapClear {T : Type} [Inhabited T] (s : List T) (i n : Int) : List T × Int :=
  let i' := if n < 0 then i + n else i
  let n' := if n < 0 then -n else n
  let l : Int := s.length
  if l ≤ n' then (List.replicate s.length default, l)
  else (clearLoop l (n'.toNat + 3) s (absGo l i') 0 n', n')

/-- Embeds `ReplaceN(i, n, s...)` of this variant, returning the new
state and the function's `int` result; `none` models a panic. -/
def ReplaceN {T : Type} [Inhabited T] (l : GoList T) (i n0 : Int) (vals : List T) :
    Option (GoList T × Int) :=
  if ¬ bound (l.len + 1) i then some (l, 0)
  else
    match numEls l n0 with
    | none => none
    | some n1 =>
      let n := min (l.len - i) n1
      let ls : Int := vals.length
      if n < 1 ∧ ls = 0 then some (l, 0)
      else
        let frontEls := l.len - i - n
        let needCap := i + ls + frontEls
        if (l.s.length : Int) < needCap then
          match alloc T needCap with
          | none => none
          | some ss =>
            match wrapCopy l.s ss l.back 0 i with
            | none => none
            | some (s1, _) =>
              match wrapCopy vals ss 0 i ls with
              | none => none
              | some (_, _) =>
                if l.len = 0 then none
                else
                  match wrapCopy s1 ss (absEl l (-frontEls)) (i + ls) frontEls with
                  | none => none
                  | some (_, _) =>
                    some ({ s := ss, back := 0, len := needCap }, needCap)
        else
          let balloonOffset := n - ls
          let moved :=
            if i < frontEls then
              (selfWrapCopy l.s l.back i balloonOffset).map
                (fun s2 => (s2, absEl { l with s := s2 } balloonOffset, l.back))
            else
              (selfWrapCopy l.s (i + n) frontEls balloonOffset).map
                (fun s2 => (s2, l.back, absEl { l with s := s2 } (l.len - balloonOffset)))
          match moved with
          | none => none
          | some (s2, back2, balloonStart) =>
            let s3 := if 0 < balloonOffset then (wrapClear s2 balloonStart balloonOffset).1 else s2
            match wrapCopy vals s3 0 (absEl { l with s := s3, back := back2 } i) ls with
            | none => none
            | some (_, _) =>
              some ({ s := s3, back := back2, len := needCap }, needCap)

/-- `Delete(i, j)`: range-validated deletion via `ReplaceN`. -/
def Delete {T : Type} [Inhabited T] (l : GoList T) (i j : Int) : Option (GoList T × Int) :=
  if ¬ boundRange l.len i j ∨ i = j then some (l, 0)
  else
    let oldLen := l.len
    (ReplaceN l i (j - i) []).map (fun p => (p.1, oldLen - p.1.len))

/-- `DeleteN(i, n)`: `Delete(i, i+n)`. -/
def DeleteN {T : Type} [Inhabited T] (l : GoList T) (i n : Int) : Option (GoList T × Int) :=
  Delete l i (i + n)

/-- `PopAt(i)`: read `Val(i)` and, when found, `DeleteN(i, 1)`. -/
def PopAt {T : Type} [Inhabited T] (l : GoList T) (i : Int) : Option (T × Bool × GoList T) :=
  match Val l i with
  | none => some (default, false, l)
  | some v => (DeleteN l i 1).map (fun p => (v, true, p.1))

/-- `PopFront()`: `PopAt(l.len - 1)`. -/
def PopFront {T : Type} [Inhabited T] (l : GoList T) : Option (T × Bool × GoList T) :=
  PopAt l (l.len - 1)

/-- `Ordered.Less(i, j)` with comparison function `cmp`. -/
def Less {T : Type} [Inhabited T] (cmp : T → T → Int) (l : GoList T) (i j : Int) : Bool :=
  cmp (At l i) (At l j) < 0

/-- The `down` sift of Go's `container/heap`, which `Heap.Init` and
`Heap.Pop` delegate to, driven through the adapter's `Less` and
`Swap`. -/
def heapDown {T : Type} [Inhabited T] (cmp : T → T → Int) :
    Nat → GoList T → Int → Int → GoList T
  | 0, l, _, _ => l
  | fuel + 1, l, i, n =>
    let j1 := 2 * i + 1
    if j1 ≥ n ∨ j1 < 0 then l
    else
      let j := if j1 + 1 < n ∧ Less cmp l (j1 + 1) j1 then j1 + 1 else j1
      if ¬ Less cmp l j i then l
      else heapDown cmp fuel (Swap l i j) j n

/-- The countdown loop of `container/heap.Init`: `down(h, i, n)` for
`i` from `n/2 - 1` to 0. -/
def heapInitLoop {T : Type} [Inhabited T] (cmp : T → T → Int) (n : Int) :
    Nat → GoList T → Int → GoList T
  | 0, l, _ => l
  | fuel + 1, l, i =>
    if i < 0 then l
    else heapInitLoop cmp n fuel (heapDown cmp (n.toNat + 1) l i n) (i - 1)

/-- `Heap.Init()`: `container/heap.Init` over the adapter. -/
def HeapInit {T : Type} [Inhabited T] (cmp : T → T → Int) (l : GoList T) : GoList T :=
  let n : Int := l.len
  heapInitLoop cmp n ((goDiv n 2).toNat + 1) l (goDiv n 2 - 1)

/-- `heapInterface.Pop`: `PopFront` with the found flag dropped. -/
def heapIfacePop {T : Type} [Inhabited T] (l : GoList T) : Option (T × GoList T) :=
  (PopFront l).map (fun p => (p.1, p.2.2))

/-- `container/heap.Pop`: swap root and last, sift down over the
shrunk range, then the adapter's `Pop`. -/
def heapPopStd {T : Type} [Inhabited T] (cmp : T → T → Int) (l : GoList T) :
    Option (T × GoList T) :=
  let n := l.len - 1
  let l1 := Swap l 0 n
  let l2 := heapDown cmp (n.toNat + 1) l1 0 n
  heapIfacePop l2

/-- `Heap.Pop()`: the zero value and `false` on an empty heap,
otherwise `container/heap.Pop` with the type assertion's `true`. -/
def HeapPop {T : Type} [Inhabited T] (cmp : T → T → Int) (l : GoList T) :
    Option (T × Bool × GoList T) :=
  if l.len = 0 then some (default, false, l)
  else (heapPopStd cmp l).map (fun p => (p.1, true, p.2))

/-- The natural three-way order on `Int` (Go's `cmp.Compare`). -/
def cmpInt (x y : Int) : Int :=
  if x < y then -1 else if x = y then 0 else 1

/-- A one-element list holding `5`, as built by `New([5], true)`. -/
def heapSt : GoList Int := ⟨[5], 0, 1⟩

end XgoV2

namespace Xgo

theorem tmod_neg_left (a b : Int) : (-a).tmod b = -(a.tmod b) := by
  rw [Int.tmod_def, Int.tmod_def, Int.neg_tdiv]
  ring

theorem tmod_bounds {L : Int} (i : Int) (hL : 0 < L) :
    -L < i.tmod L ∧ i.tmod L < L := by
  refine ⟨?_, Int.tmod_lt_of_pos _ hL⟩
  rcases le_or_lt 0 i with h | h
  · have := Int.tmod_nonneg L h
    omega
  · have h1 : (-i).tmod L < L := Int.tmod_lt_of_pos _ hL
    have h2 : (-i).tmod L = -(i.tmod L) := tmod_neg_left i L
    omega

theorem tmod_emod (i L : Int) : (i.tmod L) % L = i % L := by
  have h := Int.add_mul_emod_self_left i L (-(i.tdiv L))
  rw [Int.tmod_def]
  calc (i - L * i.tdiv L) % L = (i + L * -(i.tdiv L)) % L := by ring_nf
    _ = i % L := h

theorem add_self_emod (a b : Int) : (a + b) % b = a % b := by
  have h := Int.add_mul_emod_self_left a b 1
  rwa [mul_one] at h

/-- For a positive modulus, Go's `((i % l) + l) % l` computes the
mathematical non-negative residue. -/
theorem absGo_eq_emod {L : Int} (i : Int) (hL : 0 < L) :
    absGo L i = i % L := by
  have hb := tmod_bounds i hL
  have h0 : 0 ≤ i.tmod L + L := by omega
  unfold absGo goMod
  rw [Int.tmod_eq_emod h0 (le_of_lt hL), add_self_emod]
  exact tmod_emod i L

end Xgo

namespace XgoView

open Xgo

theorem fix_eq_emod {L : Int} (i : Int) (hL : 0 < L) :
    fix L i = i % L := by
  unfold fix
  have hL0 : L ≠ 0 := by omega
  rw [if_neg hL0]
  rcases le_or_lt 0 i with h | h
  · rw [if_pos h]
    by_cases h1 : i < L
    · rw [if_pos h1, Int.emod_eq_of_lt h h1]
    · rw [if_neg h1]
      by_cases h2 : i < 2 * L
      · rw [if_pos h2]
        calc i - L = (i - L) % L := (Int.emod_eq_of_lt (by omega) (by omega)).symm
          _ = i % L := Int.emod_sub_cancel i L
      · rw [if_neg h2]
        exact absGo_eq_emod i hL
  · rw [if_neg (by omega)]
    by_cases h1 : -L < i
    · rw [if_pos h1]
      calc i + L = (i + L) % L := (Int.emod_eq_of_lt (by omega) (by omega)).symm
        _ = i % L := add_self_emod i L
    · rw [if_neg h1]
      exact absGo_eq_emod i hL

theorem fix_zero (i : Int) : fix 0 i = 0 := by
  unfold fix
  simp

theorem fix_range {L : Int} (i : Int) (hL : 0 < L) :
    0 ≤ fix L i ∧ fix L i < L := by
  rw [fix_eq_emod i hL]
  exact ⟨Int.emod_nonneg i (by omega), Int.emod_lt_of_pos i hL⟩

/-- Claim C9: for every `length >= 0` and every integer `i`, `fix`
is total, returns `0` when `length == 0`, and for `length > 0`
returns the non-negative residue of `i` modulo `length`, lying in
`[0, length)` — for `i` of arbitrary magnitude. -/
theorem c9_fix_correct (L i : Int) (_hL : 0 ≤ L) :
    (L = 0 → fix L i = 0) ∧
    (0 < L → fix L i = i % L ∧ 0 ≤ fix L i ∧ fix L i < L) := by
  constructor
  · intro h
    rw [h]
    exact fix_zero i
  · intro h
    exact ⟨fix_eq_emod i h, fix_range i h⟩

/-- Witness for C9 at a magnitude outside the fast-path range
`[-length, 2*length)`. -/
theorem c9_fix_correct_witness :
    (0 : Int) ≤ 5 ∧
    (((5 : Int) = 0 → fix 5 (-11) = 0) ∧
      ((0 : Int) < 5 → fix 5 (-11) = (-11) % 5 ∧ 0 ≤ fix 5 (-11) ∧ fix 5 (-11) < 5)) :=
  ⟨by decide, c9_fix_correct 5 (-11) (by decide)⟩

/-- Claim C1: the claim states that for valid `(i, j, values)`,
`Replace(i, j, values)` succeeds and the logical contents become
`old[0:i] + values + old[j:oldLength]`.  On `[1, 2, 3]` the call
`Replace(1, 2, 9)` should yield `[1, 9, 3]`; as compiled it returns
success and leaves the list unchanged at `[1, 2, 3]`, because the
final `wrapCopy(s, l.s, 0, l.abs(i), ls)` writes into the value
slice `s` (Go's `copy` writes into its first operand) instead of
into the list, contradicting `wrapCopy`'s own doc comment. -/
theorem c1_replace_eval :
    NewN [1, 2, 3] 0 3 = .ok replaceSt ∧
    Replace replaceSt 1 2 [9] = .ok replaceSt ∧
    logical replaceSt = [1, 2, 3] ∧
    ([1, 2, 3] : List Int) ≠ [1, 9, 3] := by decide

/-- Claim C2: the claim states `0 <= Len() <= Cap()` after every
public operation.  On a full ten-element list, `GrowRange(2, 100)`
with the default allocator succeeds but installs a four-element
slice (the allocator is asked for the free-space range `[2, 100]`,
not for room for the ten live elements), leaving `Len() = 10 >
Cap() = 4`. -/
theorem c2_growRange_eval :
    GrowRange growRangeSt 2 100 = .ok growRangeResult ∧
    growRangeResult.len = 10 ∧
    growRangeResult.slen = 4 ∧
    ¬ growRangeResult.len ≤ growRangeResult.slen := by decide

/-- Claim C3: the claim states that a successful `Grow(n)`
establishes `Free() >= n`, in particular `Grow(5)` on an empty list
with capacity 0.  As compiled, `grow(5, -1)` computes `needCap =
len + (max-min)/2 = 0 + (-1-5)/2 = -3`, so `slen < needCap` is
false, no allocation happens, and `Grow(5)` returns nil with
`Free()` still 0. -/
theorem c3_grow_eval :
    Grow emptySt 5 = .ok emptySt ∧
    Free emptySt = 0 ∧
    ¬ (5 : Int) ≤ Free emptySt := by decide

/-- Claim C4: the claim states that `At(i)` returns the element at
logical position `i` normalized modulo the length for any back
offset.  On the list built by `NewN([10,20,30], 1, 3)` — logical
contents `[20, 30, 10]` — `At(0)` returns `10`, the slice element at
offset 0, while the element at logical position 0 is `Val(0) = 20`:
`fixAbs` never adds `v.back`, contradicting the equivalent form
`v.abs(fix(v.len, i))` stated in its own comment. -/
theorem c4_at_eval :
    NewN [10, 20, 30] 1 3 = .ok backOneSt ∧
    At backOneSt 0 = 10 ∧
    Val backOneSt 0 = some 20 ∧
    (10 : Int) ≠ 20 := by decide

/-- Counterexample to claim C5 as stated: on the full list
`[3, 9, 2]` with back 0, after `Rotate(1)` the claim requires
`At(0)` to be the element previously at logical position
`fix(3, 0+1) = 1`, namely `9`; the code leaves `At(0) = 3`, because
`At` reads through `fixAbs`, which ignores `back` entirely. -/
theorem c5_counterexample :
    (Rotate rotSt 1).s = rotSt.s ∧
    (Rotate rotSt 1).len = rotSt.len ∧
    Val rotSt (fix rotSt.len (0 + 1)) = some 9 ∧
    At (Rotate rotSt 1) 0 = 3 ∧
    (3 : Int) ≠ 9 := by decide

/-- Claim C5 (amended): for a list whose window occupies its whole
slice starting at back offset 0, `Rotate(n)` leaves the length,
capacity and slice contents unmoved, and afterwards reading logical
position `k` through `Val` yields the element that was at logical
position `fix(len, k+n)` before the call, for every `k` in
`[0, len)`. -/
theorem c5_rotate_amended {T : Type} [Inhabited T] (l : GoList T)
    (hback : l.back = 0) (_hslen : (l.s.length : Int) = l.slen)
    (hfull : l.len = l.slen) (hpos : 0 < l.len) (n k : Int)
    (hk0 : 0 ≤ k) (hk1 : k < l.len) :
    (Rotate l n).s = l.s ∧ (Rotate l n).len = l.len ∧ (Rotate l n).slen = l.slen ∧
    Val (Rotate l n) k = Val l (fix l.len (k + n)) := by
  refine ⟨rfl, rfl, rfl, ?_⟩
  have hLpos : 0 < l.len := hpos
  have hfixn := fix_range n hLpos
  have hfixkn := fix_range (k + n) hLpos
  have hb1 : elBound (Rotate l n) k = true := by
    simp only [elBound, Rotate, Bool.and_eq_true, decide_eq_true_eq]
    exact ⟨hk1, hk0⟩
  have hb2 : elBound l (fix l.len (k + n)) = true := by
    simp only [elBound, Bool.and_eq_true, decide_eq_true_eq]
    exact ⟨hfixkn.2, hfixkn.1⟩
  have hfixAbs : fixAbs l n = fix l.len n := by
    unfold fixAbs
    rw [if_neg (by omega)]
    simp only
    rw [if_neg (by omega)]
  unfold Val
  rw [hb1, hb2]
  simp only [if_true]
  congr 1
  have habs1 : abs (Rotate l n) k = fix l.len (k + n) := by
    unfold abs Rotate
    simp only [hfixAbs]
    rw [fix_eq_emod n hLpos, fix_eq_emod (k + n) hLpos]
    have hmod : (k + n % l.len) % l.len = (k + n) % l.len := by
      conv_rhs => rw [Int.add_emod]
      rw [Int.add_emod k (n % l.len) l.len, Int.emod_emod_of_dvd n (dvd_refl l.len)]
    have hn1 : 0 ≤ n % l.len := Int.emod_nonneg n (by omega)
    have hn2 : n % l.len < l.len := Int.emod_lt_of_pos n hLpos
    by_cases hc : k + n % l.len ≥ l.slen
    · rw [if_pos hc]
      have : k + n % l.len - l.len = (k + n % l.len) % l.len := by
        calc k + n % l.len - l.len = (k + n % l.len - l.len) % l.len :=
              (Int.emod_eq_of_lt (by omega) (by omega)).symm
          _ = (k + n % l.len) % l.len := Int.emod_sub_cancel _ _
      omega
    · rw [if_neg hc]
      have : k + n % l.len = (k + n % l.len) % l.len :=
        (Int.emod_eq_of_lt (by omega) (by omega)).symm
      omega
  have habs2 : abs l (fix l.len (k + n)) = fix l.len (k + n) := by
    unfold abs
    rw [hback, if_neg (by omega)]
    omega
  rw [habs1, habs2]
  rfl

/-- Witness for the amended claim C5 at the specification's own
scenario: rotating `[3, 9, 2]` by one, `Val(0)` afterwards reads the
element previously at logical position 1, namely `9`. -/
theorem c5_rotate_amended_witness :
    ((Rotate rotSt 1).s = rotSt.s ∧ (Rotate rotSt 1).len = rotSt.len ∧
      (Rotate rotSt 1).slen = rotSt.slen ∧
      Val (Rotate rotSt 1) 0 = Val rotSt (fix rotSt.len (0 + 1))) ∧
    Val rotSt (fix rotSt.len (0 + 1)) = some 9 :=
  ⟨c5_rotate_amended rotSt (by decide) (by decide) (by decide) (by decide) 1 0
      (by decide) (by decide),
    by decide⟩

/-- Claim C6: the claim states that an in-bounds `CopyTo` fills the
destination with the extracted elements and leaves the list
unchanged.  On the one-element list `[7]` with destination `[0]`,
`CopyTo` succeeds but returns the destination still `[0]` (not
`[7]`) and overwrites the list's own slice with the destination's
contents: `wrapCopy(l.s, s, l.abs(i), 0, n)` writes into `l.s`,
contradicting both `CopyTo`'s and `wrapCopy`'s doc comments. -/
theorem c6_copyTo_eval :
    CopyTo copyToSt [0] 0 1 = .ok (copyToResult, [0]) ∧
    copyToSt.s = [7] ∧
    copyToResult.s = [0] ∧
    ([0] : List Int) ≠ [7] := by decide

/-- Claim C10: the claim states that `Pop()` on a list of length
`n >= 1` returns the front element and shrinks the length to
`n - 1`.  On `[10, 20]`, `Pop` returns the front element `20` but
the length stays 2: `Pop` calls `Replace(l.len-1, 1)`, passing `1`
as the range end index `j`, so the range `[1, 1)` is empty and
nothing is deleted (for `len >= 3` the range `i > j` is even
rejected).  The element is only removed when `len == 1`. -/
theorem c10_pop_eval :
    Pop popSt = .ok (20, popSt) ∧
    popSt.len = 2 ∧
    ((2 : Int) ≠ 2 - 1) := by decide

end XgoView

namespace XgoV1

open Xgo

theorem absGo_id {L k : Int} (h0 : 0 ≤ k) (h1 : k < L) : absGo L k = k := by
  have hL : 0 < L := by omega
  rw [absGo_eq_emod k hL, Int.emod_eq_of_lt h0 h1]

theorem bound_iff {l i : Int} : bound l i = true ↔ 0 < l ∧ 0 ≤ i ∧ i < l := by
  simp [bound, and_assoc]

theorem val_unmarshal {T : Type} [Inhabited T] (d : List T) (k : Int) :
    Val (UnmarshalJSON d) k =
      if bound (d.length : Int) k then some (d.getD k.toNat default) else none := by
  unfold Val UnmarshalJSON absL
  by_cases hb : bound (d.length : Int) k = true
  · have hk := bound_iff.mp hb
    simp only [hb, if_true]
    congr 2
    rw [absGo_id hk.2.1 hk.2.2, zero_add, absGo_id hk.2.1 hk.2.2]
  · simp only [Bool.not_eq_true] at hb
    simp only [hb, Bool.false_eq_true, if_false]

theorem marshal_getD {T : Type} [Inhabited T] (l : GoList T) (k : Int)
    (hk0 : 0 ≤ k) (hk1 : k < l.len) :
    (MarshalJSON l).getD k.toNat default = At l k := by
  have hz : l.len ≠ 0 := by omega
  simp only [MarshalJSON, if_neg hz]
  have hklt : k.toNat < l.len.toNat := by omega
  rw [List.getD_eq_getElem?_getD, List.getElem?_map, List.getElem?_range hklt]
  simp only [Option.map_some', Option.getD_some]
  congr 1
  omega

/-- Claim C8: encode then decode is a round-trip for the
`MarshalJSON`/`UnmarshalJSON` pair of the first `list.go` variant:
for every list state (any back offset, any prior mutations), the
decoded state has the same length and reads identically through
`Val` at every position. -/
theorem c8_roundtrip {T : Type} [Inhabited T] (l : GoList T)
    (h0 : 0 ≤ l.len) (_h1 : l.len ≤ (l.s.length : Int)) :
    (UnmarshalJSON (MarshalJSON l)).len = l.len ∧
    ∀ k : Int, Val (UnmarshalJSON (MarshalJSON l)) k = Val l k := by
  have hlen : ((MarshalJSON l).length : Int) = l.len := by
    by_cases hz : l.len = 0
    · simp [MarshalJSON, hz]
    · simp only [MarshalJSON, if_neg hz, List.length_map, List.length_range]
      exact Int.toNat_of_nonneg h0
  constructor
  · exact hlen
  · intro k
    rw [val_unmarshal, hlen]
    by_cases hb : bound l.len k = true
    · have hk := bound_iff.mp hb
      rw [if_pos hb, marshal_getD l k hk.2.1 hk.2.2]
      unfold At Val
      rw [if_pos hb]
      simp
    · simp only [Bool.not_eq_true] at hb
      rw [if_neg (by simp [hb]), Val, if_neg (by simp [hb])]

/-- Witness for C8 at a wrapped state with back offset 1. -/
theorem c8_roundtrip_witness :
    ((0 : Int) ≤ jsonSt.len ∧ jsonSt.len ≤ (jsonSt.s.length : Int)) ∧
    ((UnmarshalJSON (MarshalJSON jsonSt)).len = jsonSt.len ∧
      ∀ k : Int, Val (UnmarshalJSON (MarshalJSON jsonSt)) k = Val jsonSt k) :=
  ⟨⟨by decide, by decide⟩, c8_roundtrip jsonSt (by decide) (by decide)⟩

end XgoV1

namespace XgoV2

/-- Claim C7: the claim states that popping a heap of `N` elements
built by `Init()` yields `N` successful pops and an empty heap whose
next `Pop` returns the zero value and `false`.  For `N = 1` over the
list `[5]` with the natural order: `Init` is a no-op, the first
`Pop()` returns `(5, true)` but leaves the length at 1 — `PopFront`
delegates to `ReplaceN(0, 1)`, whose `numEls` computes `1 % 1 == 0`
and deletes nothing, contradicting `PopAt`'s own doc comment — and
the next `Pop()` on the unchanged state again returns `(5, true)`
rather than `(0, false)`. -/
theorem c7_heap_eval :
    HeapInit cmpInt heapSt = heapSt ∧
    HeapPop cmpInt heapSt = some (5, true, heapSt) ∧
    heapSt.len = 1 ∧
    heapSt.len ≠ 0 ∧
    ((5 : Int), true) ≠ ((0 : Int), false) := by decide

end XgoV2
